import Mathlib

set_option maxHeartbeats 1000000

/-! Shallow embedding of the polytope-bias-estimation (PBE) notebook: row
normalization, the omnidirectionality check, the per-vertex bias loop with its
conic (SOCP) fallback, the ReLU forward map and the facet-based reconstruction.
External numerical collaborators (the scipy `linprog` LP solver, the cvxpy SOCP
solver and `np.linalg.lstsq`) are modelled as explicit oracle parameters; the
problem data handed to each oracle is embedded from the source. -/

namespace PBE

noncomputable section

/-- Result of a Python function that can return a value, return a string
(dynamic-type overload used by the source for domain errors), or raise. -/
inductive PyResult (β : Type) : Type where
  | val : β → PyResult β
  | strRet : String → PyResult β
  | exn : String → PyResult β

/-- Status reported by the scipy `linprog` call, as discriminated by the
source through `res.message` string comparison. -/
inductive LPStatus : Type where
  | infeasible : LPStatus
  | optimal : LPStatus
  | other : LPStatus

/-- Data returned by the LP solver: a status and the solution vector `res.x`. -/
structure LPResult (m : ℕ) : Type where
  status : LPStatus
  x : Fin m → ℝ

/-- Problem data handed to `linprog`: objective `c`, equality constraint matrix
`A_eq` and right-hand side `b_eq`. -/
structure LPProblem (n m : ℕ) : Type where
  c : Fin m → ℝ
  A : Fin (n + 1) → Fin m → ℝ
  b : Fin (n + 1) → ℝ

/-- Output of `is_omnidir`: the returned value (`none` models Python `None`)
together with the list of messages printed. -/
structure OmniResult : Type where
  value : Option Bool
  printed : List String

def notFrameMsg : String := "The system is not a frame"

def boundaryMsg : String := "0 lies at or very very close to the boundary of the polytope."

def notOmniMsg : String := "The frame is not omnidirectional"

def domainMsg : String := "Only sphere and ball are supported as data domains"

def valueErrMsg : String := "ValueError: min of an empty sequence"

def nameErrMsg : String := "NameError: name i is not defined"

def sphereK : String := "sphere"

def ballK : String := "ball"

def facetMode : String := "facet"

/-- Embeds `norm_row`: `norm = np.linalg.norm(W, axis=1)` (Euclidean row norms)
and `W_norm = W / norm[:, None]`; returns the pair `(W_norm, norm)`. -/
def norm_row {m n : ℕ} (W : Matrix (Fin m) (Fin n) ℝ) :
    Matrix (Fin m) (Fin n) ℝ × (Fin m → ℝ) :=
  (Matrix.of fun i j => W i j / Real.sqrt (∑ k, W i k ^ 2),
   fun i => Real.sqrt (∑ k, W i k ^ 2))

/-- Embeds the LP constructed inside `is_omnidir`: objective `ones`, equality
matrix `WW = [Wᵀ; 1ᵀ]` and right-hand side `[0, …, 0, 1]`. -/
def omnidirProblem {m n : ℕ} (W : Matrix (Fin m) (Fin n) ℝ) : LPProblem n m where
  c := fun _ => 1
  A := fun r j => if h : (r : ℕ) < n then W j ⟨r, h⟩ else 1
  b := fun r => if (r : ℕ) < n then 0 else 1

/-- Embeds `is_omnidir`.  If `matrix_rank(W) ≠ n` the source executes
`return print('The system is not a frame')`, which prints the message and
returns `None`.  Otherwise the LP is solved; infeasible gives `False`,
optimal gives `True` (with a boundary warning printed when any coordinate of
`res.x` is `< 1e-10`), and any other status falls through returning `None`. -/
def is_omnidir {m n : ℕ} (solver : LPProblem n m → LPResult m)
    (W : Matrix (Fin m) (Fin n) ℝ) : OmniResult :=
  if W.rank ≠ n then ⟨none, [notFrameMsg]⟩
  else
    match (solver (omnidirProblem W)).status with
    | LPStatus.infeasible => ⟨some false, []⟩
    | LPStatus.optimal =>
        if ∃ i, (solver (omnidirProblem W)).x i < 1 / 10 ^ 10 then
          ⟨some true, [boundaryMsg]⟩
        else ⟨some true, []⟩
    | LPStatus.other => ⟨none, []⟩

/-- Embeds `np.unique(np.array(facets)[[vert in facet for facet in facets]])`:
the sorted list of distinct vertex indices occurring in some facet that
contains `v`.  Filtering the already sorted duplicate-free `finRange` by
membership yields exactly the sorted deduplicated flattening. -/
def neighbourList {m : ℕ} (facets : List (List (Fin m))) (v : Fin m) :
    List (Fin m) :=
  (List.finRange m).filter
    (fun u => decide (u ∈ (facets.filter (fun f => decide (v ∈ f))).flatten))

/-- Minimum of a list of reals, `none` on the empty list (where `np.min` and
Python `min` raise `ValueError`). -/
def listMin : List ℝ → Option ℝ
  | [] => none
  | a :: as => some (as.foldl min a)

/-- Row restriction `W[l, :]` of a matrix to a list of row indices. -/
def subRows {m n : ℕ} (W : Matrix (Fin m) (Fin n) ℝ) (l : List (Fin m)) :
    Matrix (Fin l.length) (Fin n) ℝ :=
  Matrix.of fun i j => W (l.get i) j

/-- Embeds `alpha_S`: for each row `i` of `F` the SOCP solver returns the
optimal value of problem `i` (the oracle `socp`); the source appends each
`prob.value` to `sol` and returns `min(sol)` (raising on an empty matrix). -/
def alpha_S {n : ℕ} (socp : (k : ℕ) → Matrix (Fin k) (Fin n) ℝ → Fin k → ℝ)
    {k : ℕ} (F : Matrix (Fin k) (Fin n) ℝ) : Option ℝ :=
  listMin ((List.finRange k).map (socp k F))

/-- The set of objective values of the SOCP the source builds for row `i` of a
neighbourhood submatrix `F`: minimize `(F[i,:]·Fᵀ)·c` subject to
`‖Fᵀc‖₂ ≤ 1` and `c ≥ 0`.  The optimal value of problem `i` is the greatest
lower bound of this set. -/
def socValues {n k : ℕ} (F : Matrix (Fin k) (Fin n) ℝ) (i : Fin k) : Set ℝ :=
  { y | ∃ c : Fin k → ℝ, (∀ j, 0 ≤ c j) ∧
      Real.sqrt (∑ d, (∑ j, c j * F j d) ^ 2) ≤ 1 ∧
      y = ∑ j, (∑ d, F i d * F j d) * c j }

/-- Correlations `W_norm[v,:] · W_norm[u,:]ᵀ` of vertex `v` against each listed
neighbour direction `u`. -/
def corrList {m n : ℕ} (Wn : Matrix (Fin m) (Fin n) ℝ) (v : Fin m)
    (nb : List (Fin m)) : List ℝ :=
  nb.map fun u => ∑ j, Wn v j * Wn u j

/-- The per-vertex `min_corr` after step 4 of the loop: the minimum pairwise
correlation against the neighbourhood, replaced by the conic bound `alpha_S`
on the neighbourhood submatrix exactly when it is strictly negative. -/
def pbeMinCorr {m n : ℕ} (socp : (k : ℕ) → Matrix (Fin k) (Fin n) ℝ → Fin k → ℝ)
    (Wn : Matrix (Fin m) (Fin n) ℝ) (facets : List (List (Fin m))) (v : Fin m) :
    Option ℝ :=
  match listMin (corrList Wn v (neighbourList facets v)) with
  | none => none
  | some mc =>
      if mc < 0 then alpha_S socp (subRows Wn (neighbourList facets v))
      else some mc

/-- One iteration of the per-vertex loop of `pbe`: compute `min_corr` (with the
conic fallback), then dispatch on the domain `K`, clamping with
`np.min([min_corr, 0])` for the ball and returning the unsupported-domain
string for any other `K`. -/
def pbeEntry {m n : ℕ} (socp : (k : ℕ) → Matrix (Fin k) (Fin n) ℝ → Fin k → ℝ)
    (Wn : Matrix (Fin m) (Fin n) ℝ) (facets : List (List (Fin m)))
    (K : String) (v : Fin m) : PyResult ℝ :=
  match pbeMinCorr socp Wn facets v with
  | none => PyResult.exn valueErrMsg
  | some mc =>
      if K = sphereK then PyResult.val mc
      else if K = ballK then PyResult.val (min mc 0)
      else PyResult.strRet domainMsg

/-- Runs the loop body over a list of vertices, collecting the `alpha_norm`
entries and propagating the first early `return` (string or exception). -/
def pbeLoop {m : ℕ} (entries : Fin m → PyResult ℝ) :
    List (Fin m) → PyResult (List ℝ)
  | [] => PyResult.val []
  | v :: vs =>
      match entries v with
      | PyResult.val a =>
          match pbeLoop entries vs with
          | PyResult.val l => PyResult.val (a :: l)
          | PyResult.strRet s => PyResult.strRet s
          | PyResult.exn s => PyResult.exn s
      | PyResult.strRet s => PyResult.strRet s
      | PyResult.exn s => PyResult.exn s

/-- Embeds `pbe`: the omnidirectionality gate (`if is_omnidir(W) == False`),
row normalization, the per-vertex loop, and the final scaling
`np.multiply(alpha_norm, np.reciprocal(norm)) * radius ** (-1)`. -/
def pbe {m n : ℕ} (solver : LPProblem n m → LPResult m)
    (socp : (k : ℕ) → Matrix (Fin k) (Fin n) ℝ → Fin k → ℝ)
    (W : Matrix (Fin m) (Fin n) ℝ) (facets : List (List (Fin m)))
    (K : String) (radius : ℝ) : PyResult (Fin m → ℝ) :=
  if (is_omnidir solver W).value = some false then PyResult.strRet notOmniMsg
  else
    match pbeLoop (pbeEntry socp (norm_row W).1 facets K) (List.finRange m) with
    | PyResult.val l =>
        PyResult.val fun v => l.getD (v : ℕ) 0 * ((norm_row W).2 v)⁻¹ * radius⁻¹
    | PyResult.strRet s => PyResult.strRet s
    | PyResult.exn s => PyResult.exn s

/-- Embeds `relu`: `z = np.dot(W, x) - b; return z * (z > 0)`, where the
boolean mask multiplies as an indicator. -/
def relu {m n : ℕ} (x : Fin n → ℝ) (W : Matrix (Fin m) (Fin n) ℝ)
    (b : Fin m → ℝ) : Fin m → ℝ :=
  fun i =>
    ((∑ j, W i j * x j) - b i) *
      (if 0 < (∑ j, W i j * x j) - b i then 1 else 0)

/-- Embeds `I = np.where(z > 0)[0]`: the sorted list of active indices. -/
def support {m : ℕ} (z : Fin m → ℝ) : List (Fin m) :=
  (List.finRange m).filter fun i => decide (0 < z i)

/-- The qualification test of the facet scan: `all(k in I for k in facets[i])`. -/
def facetPred {m : ℕ} (z : Fin m → ℝ) (f : List (Fin m)) : Bool :=
  f.all fun k => decide (k ∈ support z)

/-- Index of the first element satisfying `p`, mirroring the `for`-loop scan. -/
def findFirst {β : Type} (p : β → Bool) : List β → Option ℕ
  | [] => none
  | x :: xs => if p x then some 0 else (findFirst p xs).map (· + 1)

/-- The loop variable `i` left after `for i in range(len(facets)): … break`:
the first qualifying index, or `len(facets) - 1` when no facet qualifies (the
loop runs to completion and `i` keeps its last value); `none` models the
`NameError` when the facet list is empty and `i` was never assigned. -/
def facetChoice {m : ℕ} (z : Fin m → ℝ) (facets : List (List (Fin m))) :
    Option ℕ :=
  match facets with
  | [] => none
  | _ :: _ => some ((findFirst (facetPred z) facets).getD (facets.length - 1))

/-- Embeds `relu_inv`: compute the support, pick the working index list
(`facet` mode scans the facet list, any other mode uses the whole support),
restrict `W`, `b`, `z` to it and hand the system `W_f · x ≈ z_f + b_f` to the
`np.linalg.lstsq` oracle. -/
def relu_inv {m n : ℕ}
    (lstsq : (k : ℕ) → Matrix (Fin k) (Fin n) ℝ → (Fin k → ℝ) → Fin n → ℝ)
    (z : Fin m → ℝ) (W : Matrix (Fin m) (Fin n) ℝ) (b : Fin m → ℝ)
    (facets : List (List (Fin m))) (mode : String) : PyResult (Fin n → ℝ) :=
  match
    (if mode = facetMode then (facetChoice z facets).bind fun i => facets.get? i
     else some (support z)) with
  | none => PyResult.exn nameErrMsg
  | some f =>
      PyResult.val (lstsq f.length (subRows W f) fun i => z (f.get i) + b (f.get i))

/-- Squared residual of a candidate solution of the restricted system; the
least-squares solution returned by `np.linalg.lstsq` minimizes it. -/
def lsqError {k n : ℕ} (A : Matrix (Fin k) (Fin n) ℝ) (r : Fin k → ℝ)
    (y : Fin n → ℝ) : ℝ :=
  ∑ i, ((∑ j, A i j * y j) - r i) ^ 2

/-! Concrete instances used to exercise the definitions: a one-dimensional
two-vector frame, a rank-deficient square matrix, the four-vector cross frame
in the plane with the facet list of its convex hull, and truthful oracle
values for the external solvers at those instances. -/

/-- The frame `{1, -1} ⊂ ℝ¹` (unit rows, omnidirectional, rank 1). -/
def W1 : Matrix (Fin 2) (Fin 1) ℝ := !![(1 : ℝ); -1]

/-- Facets of the hull of `{1, -1}` on the line: the two endpoints. -/
def facets1 : List (List (Fin 2)) := [[0], [1]]

/-- A single facet joining both vectors of `W1`, giving a neighbourhood with a
negative pairwise correlation. -/
def facetsPair : List (List (Fin 2)) := [[0, 1]]

/-- LP oracle for `W1`: the problem `W1ᵀc = 0, ∑c = 1, c ≥ 0` has the exact
optimum `c = (1/2, 1/2)` (the objective `∑c` is forced to `1`). -/
def solver1 : LPProblem 1 2 → LPResult 2 :=
  fun _ => ⟨LPStatus.optimal, ![1 / 2, 1 / 2]⟩

/-- SOCP oracle for one-dimensional neighbourhood submatrices; `-1` is the
true optimal value for the `{1, -1}` neighbourhood of `facetsPair`. -/
def socpW1 : (k : ℕ) → Matrix (Fin k) (Fin 1) ℝ → Fin k → ℝ := fun _ _ _ => -1

/-- Reconstruction oracle returning the zero vector in ℝ¹. -/
def lstsqZ1 : (k : ℕ) → Matrix (Fin k) (Fin 1) ℝ → (Fin k → ℝ) → Fin 1 → ℝ :=
  fun _ _ _ => ![0]

/-- The zero vector on two indices (used as a bias and as an all-inactive
forward output). -/
def zeroB2 : Fin 2 → ℝ := ![0, 0]

/-- A fully active forward output over `W1`. -/
def z5 : Fin 2 → ℝ := ![1, 1]

/-- Rank-deficient matrix (second row is twice the first): rank 1 < 2. -/
def W0 : Matrix (Fin 2) (Fin 2) ℝ := !![1, 0; 2, 0]

/-- The cross frame `{e₁, e₂, -e₁, -e₂} ⊂ ℝ²`: unit rows, omnidirectional,
full column rank. -/
def Wsq : Matrix (Fin 4) (Fin 2) ℝ := !![1, 0; 0, 1; -1, 0; 0, -1]

/-- The facets (edges) of the convex hull of the cross frame, in one of the
implementation-defined enumeration orders. -/
def facetsSq : List (List (Fin 4)) := [[3, 0], [0, 1], [1, 2], [2, 3]]

/-- LP oracle for `Wsq`: `c = (1/4, 1/4, 1/4, 1/4)` is an exact optimum of the
feasibility LP (`e₁ + (-e₁) = 0`, `e₂ + (-e₂) = 0`, `∑c = 1`). -/
def solverSq : LPProblem 2 4 → LPResult 4 :=
  fun _ => ⟨LPStatus.optimal, ![1 / 4, 1 / 4, 1 / 4, 1 / 4]⟩

/-- SOCP oracle for the cross frame; never consulted because no pairwise
neighbourhood correlation there is negative. -/
def socpSq : (k : ℕ) → Matrix (Fin k) (Fin 2) ℝ → Fin k → ℝ := fun _ _ _ => 0

/-- The sphere bias `pbe(Wsq, facetsSq, 'sphere', 1)` evaluates to zero. -/
def alphaSq0 : Fin 4 → ℝ := ![0, 0, 0, 0]

/-- A unit vector in the open cone of the facet `[0, 1]` of the cross frame. -/
def x45 : Fin 2 → ℝ := ![3 / 5, 4 / 5]

/-- A unit vector pointing exactly at vertex `0` of the cross frame: only one
coordinate of its forward image is positive, so no facet is fully active. -/
def xc : Fin 2 → ℝ := ![1, 0]

/-- Reconstruction oracle returning the zero vector in ℝ². -/
def lstsqZ2 : (k : ℕ) → Matrix (Fin k) (Fin 2) ℝ → (Fin k → ℝ) → Fin 2 → ℝ :=
  fun _ _ _ => ![0, 0]

/-- Reconstruction oracle returning `(3/5, 4/5)`: the exact least-squares
solution of the system `relu_inv` builds for `x45` over the cross frame. -/
def lstsq45 : (k : ℕ) → Matrix (Fin k) (Fin 2) ℝ → (Fin k → ℝ) → Fin 2 → ℝ :=
  fun _ _ _ => ![3 / 5, 4 / 5]

/-- The frame `{1, -1, 1} ⊂ ℝ¹` (rank 1, omnidirectional). -/
def W3 : Matrix (Fin 3) (Fin 1) ℝ := !![(1 : ℝ); -1; 1]

/-- An exact optimal solution of the omnidirectionality LP for `W3` whose last
coordinate sits exactly at the warning tolerance `1e-10`: it satisfies
`c₀ - c₁ + c₂ = 0`, `∑c = 1`, `c ≥ 0`, and every feasible point is optimal
because the objective `∑c` is pinned to `1` by the last constraint row. -/
def cE : Fin 3 → ℝ := ![1 / 2 - 1 / 10 ^ 10, 1 / 2, 1 / 10 ^ 10]

/-- LP oracle for `W3` returning the boundary optimum `cE`. -/
def solverE : LPProblem 1 3 → LPResult 3 := fun _ => ⟨LPStatus.optimal, cE⟩

/-! Structural lemmas about the embedded operations. -/

theorem foldl_min_mem_le (as : List ℝ) : ∀ a : ℝ,
    as.foldl min a ∈ a :: as ∧ ∀ b ∈ a :: as, as.foldl min a ≤ b := by
  induction as with
  | nil =>
      intro a
      refine ⟨List.mem_singleton.mpr rfl, ?_⟩
      intro b hb
      rw [List.mem_singleton] at hb
      simp [hb]
  | cons y ys ih =>
      intro a
      have h := ih (min a y)
      constructor
      · rcases List.mem_cons.mp h.1 with hm | hm
        · rcases min_choice a y with hc | hc
          · rw [List.foldl_cons, hm, hc]
            exact List.mem_cons_self _ _
          · rw [List.foldl_cons, hm, hc]
            exact List.mem_cons_of_mem _ (List.mem_cons_self _ _)
        · rw [List.foldl_cons]
          exact List.mem_cons_of_mem _ (List.mem_cons_of_mem _ hm)
      · intro b hb
        rw [List.foldl_cons]
        rcases List.mem_cons.mp hb with rfl | hb
        · exact le_trans (h.2 _ (List.mem_cons_self _ _)) (min_le_left _ _)
        · rcases List.mem_cons.mp hb with rfl | hb
          · exact le_trans (h.2 _ (List.mem_cons_self _ _)) (min_le_right _ _)
          · exact h.2 _ (List.mem_cons_of_mem _ hb)

theorem listMin_mem {l : List ℝ} {a : ℝ} (h : listMin l = some a) : a ∈ l := by
  cases l with
  | nil => simp [listMin] at h
  | cons x xs =>
      simp only [listMin, Option.some.injEq] at h
      rw [← h]
      exact (foldl_min_mem_le xs x).1

theorem listMin_le {l : List ℝ} {a : ℝ} (h : listMin l = some a) :
    ∀ b ∈ l, a ≤ b := by
  cases l with
  | nil => simp [listMin] at h
  | cons x xs =>
      simp only [listMin, Option.some.injEq] at h
      rw [← h]
      exact (foldl_min_mem_le xs x).2

theorem findFirst_spec {β : Type} (p : β → Bool) :
    ∀ (l : List β) (i : ℕ), findFirst p l = some i →
      ∃ x, l.get? i = some x ∧ p x = true ∧
        ∀ j < i, ∀ y, l.get? j = some y → p y = false := by
  intro l
  induction l with
  | nil => intro i h; simp [findFirst] at h
  | cons x xs ih =>
      intro i h
      by_cases hp : p x
      · simp only [findFirst, if_pos hp] at h
        cases h
        exact ⟨x, rfl, hp, fun j hj => absurd hj (Nat.not_lt_zero j)⟩
      · simp only [findFirst, if_neg hp] at h
        cases hfx : findFirst p xs with
        | none => rw [hfx] at h; simp at h
        | some k =>
            rw [hfx] at h
            simp only [Option.map_some'] at h
            cases h
            obtain ⟨y, hy, hpy, hfirst⟩ := ih k hfx
            refine ⟨y, ?_, hpy, ?_⟩
            · rw [List.get?_cons_succ]; exact hy
            · intro j hj g hg
              cases j with
              | zero =>
                  rw [List.get?_cons_zero] at hg
                  cases hg
                  simpa using hp
              | succ j =>
                  rw [List.get?_cons_succ] at hg
                  exact hfirst j (Nat.lt_of_succ_lt_succ hj) g hg

theorem pbeLoop_val {m : ℕ} (entries : Fin m → PyResult ℝ) :
    ∀ (L : List (Fin m)) (l : List ℝ), pbeLoop entries L = PyResult.val l →
      ∀ (i : ℕ) (h : i < L.length),
        ∃ e, entries (L.get ⟨i, h⟩) = PyResult.val e ∧ l.getD i 0 = e := by
  intro L
  induction L with
  | nil => intro l _ i h; exact absurd h (Nat.not_lt_zero i)
  | cons v vs ih =>
      intro l hl i h
      cases hv : entries v with
      | val a =>
          cases hrest : pbeLoop entries vs with
          | val l2 =>
              simp only [pbeLoop, hv, hrest] at hl
              cases hl
              cases i with
              | zero => exact ⟨a, hv, rfl⟩
              | succ i =>
                  obtain ⟨e, he, hg⟩ := ih l2 hrest i (Nat.lt_of_succ_lt_succ h)
                  exact ⟨e, he, hg⟩
          | strRet s =>
              simp only [pbeLoop, hv, hrest] at hl
              exact PyResult.noConfusion hl
          | exn s =>
              simp only [pbeLoop, hv, hrest] at hl
              exact PyResult.noConfusion hl
      | strRet s =>
          simp only [pbeLoop, hv] at hl
          exact PyResult.noConfusion hl
      | exn s =>
          simp only [pbeLoop, hv] at hl
          exact PyResult.noConfusion hl

theorem pbe_val_entry {m n : ℕ} (solver : LPProblem n m → LPResult m)
    (socp : (k : ℕ) → Matrix (Fin k) (Fin n) ℝ → Fin k → ℝ)
    (W : Matrix (Fin m) (Fin n) ℝ) (facets : List (List (Fin m)))
    (K : String) (radius : ℝ) (a : Fin m → ℝ)
    (h : pbe solver socp W facets K radius = PyResult.val a) (v : Fin m) :
    ∃ e, pbeEntry socp (norm_row W).1 facets K v = PyResult.val e ∧
      a v = e * ((norm_row W).2 v)⁻¹ * radius⁻¹ := by
  by_cases hg : (is_omnidir solver W).value = some false
  · rw [pbe, if_pos hg] at h
    exact absurd h (by intro hc; cases hc)
  · rw [pbe, if_neg hg] at h
    cases hL : pbeLoop (pbeEntry socp (norm_row W).1 facets K) (List.finRange m) with
    | val l =>
        rw [hL] at h
        injection h with h2
        have hlen : (v : ℕ) < (List.finRange m).length := by
          rw [List.length_finRange]; exact v.isLt
        obtain ⟨e, he, hgd⟩ := pbeLoop_val _ _ l hL (v : ℕ) hlen
        rw [List.get_finRange] at he
        refine ⟨e, by simpa using he, ?_⟩
        rw [← h2]
        simp only [hgd]
    | strRet s => rw [hL] at h; exact absurd h (by intro hc; cases hc)
    | exn s => rw [hL] at h; exact absurd h (by intro hc; cases hc)

theorem ball_ne_sphere : ballK ≠ sphereK := by decide

theorem pbeEntry_val_sphere {m n : ℕ}
    (socp : (k : ℕ) → Matrix (Fin k) (Fin n) ℝ → Fin k → ℝ)
    (Wn : Matrix (Fin m) (Fin n) ℝ) (facets : List (List (Fin m))) (v : Fin m)
    (e : ℝ) :
    pbeEntry socp Wn facets sphereK v = PyResult.val e ↔
      pbeMinCorr socp Wn facets v = some e := by
  cases hmc : pbeMinCorr socp Wn facets v with
  | none =>
      simp only [pbeEntry, hmc]
      exact ⟨fun h => PyResult.noConfusion h, fun h => Option.noConfusion h⟩
  | some mc =>
      simp only [pbeEntry, hmc, if_pos rfl]
      constructor
      · intro h; injection h with h; rw [h]
      · intro h; injection h with h; simp [h]

theorem pbeEntry_val_ball {m n : ℕ}
    (socp : (k : ℕ) → Matrix (Fin k) (Fin n) ℝ → Fin k → ℝ)
    (Wn : Matrix (Fin m) (Fin n) ℝ) (facets : List (List (Fin m))) (v : Fin m)
    (e : ℝ) :
    pbeEntry socp Wn facets ballK v = PyResult.val e ↔
      ∃ mc, pbeMinCorr socp Wn facets v = some mc ∧ e = min mc 0 := by
  cases hmc : pbeMinCorr socp Wn facets v with
  | none =>
      simp only [pbeEntry, hmc]
      constructor
      · intro h; exact PyResult.noConfusion h
      · rintro ⟨mc, hc, -⟩; exact Option.noConfusion hc
  | some mc =>
      simp only [pbeEntry, hmc, if_neg ball_ne_sphere, if_pos rfl]
      constructor
      · intro h; injection h with h; exact ⟨mc, rfl, h.symm⟩
      · rintro ⟨mc2, hc, he⟩
        injection hc with hc
        rw [he, hc]
        simp

/-! Claim theorems. -/

/-- C6: for every `x`, `W`, `b` of matching shapes, the forward map
`relu(x, W, b)` equals the elementwise maximum of `Wx − b` and `0`.  The
embedded `relu` is a pure function of its arguments by construction, mirroring
the side-effect-free source. -/
theorem C6_relu_is_max {m n : ℕ} (x : Fin n → ℝ) (W : Matrix (Fin m) (Fin n) ℝ)
    (b : Fin m → ℝ) (i : Fin m) :
    relu x W b i = max ((∑ j, W i j * x j) - b i) 0 := by
  unfold relu
  rcases le_or_lt ((∑ j, W i j * x j) - b i) 0 with h | h
  · rw [if_neg (not_lt.mpr h), mul_zero, max_eq_right h]
  · rw [if_pos h, mul_one, max_eq_left (le_of_lt h)]

/-- C10: whenever every row of `W` has nonzero Euclidean norm, the output of
`norm_row` satisfies `norms[i] * W_norm[i, :] = W[i, :]`, so the original
frame is exactly recoverable. -/
theorem C10_norm_row_lossless {m n : ℕ} (W : Matrix (Fin m) (Fin n) ℝ)
    (h : ∀ i, Real.sqrt (∑ k, W i k ^ 2) ≠ 0) (i : Fin m) (j : Fin n) :
    (norm_row W).2 i * (norm_row W).1 i j = W i j := by
  show Real.sqrt (∑ k, W i k ^ 2) * (W i j / Real.sqrt (∑ k, W i k ^ 2)) = W i j
  rw [mul_comm, div_mul_cancel₀ _ (h i)]

/-- Witness for C10 at the concrete one-row frame `W = [[1]]`. -/
theorem C10_witness :
    (norm_row (m := 1) (n := 1) 1).2 0 * (norm_row (m := 1) (n := 1) 1).1 0 0 = 1 := by
  have h : ∀ i : Fin 1, Real.sqrt (∑ k, (1 : Matrix (Fin 1) (Fin 1) ℝ) i k ^ 2) ≠ 0 := by
    intro i
    fin_cases i
    norm_num [Fin.sum_univ_one, Matrix.one_apply]
  have := C10_norm_row_lossless (m := 1) (n := 1) 1 h 0 0
  rw [this]
  simp [Matrix.one_apply]

/-- C1: whenever `pbe` returns bias vectors for both domains on the same frame,
facet list and positive radius, the ball-domain vector is elementwise at most
the sphere-domain vector, and every ball-domain entry is at most `0`. -/
theorem C1_ball_le_sphere {m n : ℕ} (solver : LPProblem n m → LPResult m)
    (socp : (k : ℕ) → Matrix (Fin k) (Fin n) ℝ → Fin k → ℝ)
    (W : Matrix (Fin m) (Fin n) ℝ) (facets : List (List (Fin m))) (r : ℝ)
    (aB aS : Fin m → ℝ) (hr : 0 < r)
    (hB : pbe solver socp W facets ballK r = PyResult.val aB)
    (hS : pbe solver socp W facets sphereK r = PyResult.val aS) (v : Fin m) :
    aB v ≤ aS v ∧ aB v ≤ 0 := by
  obtain ⟨eB, heB, haB⟩ := pbe_val_entry solver socp W facets ballK r aB hB v
  obtain ⟨eS, heS, haS⟩ := pbe_val_entry solver socp W facets sphereK r aS hS v
  obtain ⟨mc, hmc, hball⟩ := (pbeEntry_val_ball socp _ facets v eB).mp heB
  have hsphere := (pbeEntry_val_sphere socp _ facets v eS).mp heS
  rw [hmc] at hsphere
  injection hsphere with hsphere
  have hinv1 : (0 : ℝ) ≤ ((norm_row W).2 v)⁻¹ :=
    inv_nonneg.mpr (Real.sqrt_nonneg _)
  have hinv2 : (0 : ℝ) ≤ r⁻¹ := le_of_lt (inv_pos.mpr hr)
  constructor
  · rw [haB, haS, hball, ← hsphere]
    exact mul_le_mul_of_nonneg_right
      (mul_le_mul_of_nonneg_right (min_le_left _ _) hinv1) hinv2
  · rw [haB, hball]
    exact mul_nonpos_iff.mpr
      (Or.inr ⟨mul_nonpos_iff.mpr (Or.inr ⟨min_le_right _ _, hinv1⟩), hinv2⟩)

theorem listMin_eq_none {l : List ℝ} : listMin l = none ↔ l = [] := by
  cases l <;> simp [listMin]

theorem isGLB_listMin_iUnion {k : ℕ} (S : Fin k → Set ℝ) (g : Fin k → ℝ)
    (hg : ∀ i, IsGLB (S i) (g i)) (s : ℝ)
    (hs : listMin ((List.finRange k).map g) = some s) :
    IsGLB (⋃ i, S i) s := by
  constructor
  · intro t ht
    rcases Set.mem_iUnion.mp ht with ⟨i, hti⟩
    have h1 : s ≤ g i :=
      listMin_le hs _ (List.mem_map_of_mem g (List.mem_finRange i))
    exact le_trans h1 ((hg i).1 hti)
  · intro b hb
    have hmem := listMin_mem hs
    rcases List.mem_map.mp hmem with ⟨i, -, hgi⟩
    rw [← hgi]
    exact (hg i).2 fun t ht => hb (Set.mem_iUnion.mpr ⟨i, ht⟩)

/-- C7: when `pbe` succeeds, the returned bias vector (one entry per frame row,
hence of length `m`) satisfies, at every vertex `v`,
`α[v] = min_corr(v) / ‖W[v,:]‖₂ / radius`, where `min_corr(v)` is the
per-vertex correlation bound of the loop, clamped with `min(·, 0)` exactly in
the ball domain, and the norm is the original Euclidean row norm. -/
theorem C7_pbe_scaling {m n : ℕ} (solver : LPProblem n m → LPResult m)
    (socp : (k : ℕ) → Matrix (Fin k) (Fin n) ℝ → Fin k → ℝ)
    (W : Matrix (Fin m) (Fin n) ℝ) (facets : List (List (Fin m)))
    (K : String) (radius : ℝ) (a : Fin m → ℝ)
    (h : pbe solver socp W facets K radius = PyResult.val a) (v : Fin m) :
    ∃ mc, pbeMinCorr socp (norm_row W).1 facets v = some mc ∧
      ((K = sphereK ∧ a v = mc / Real.sqrt (∑ k, W v k ^ 2) / radius) ∨
       (K = ballK ∧ a v = min mc 0 / Real.sqrt (∑ k, W v k ^ 2) / radius)) := by
  obtain ⟨e, he, hav⟩ := pbe_val_entry solver socp W facets K radius a h v
  have hav2 : a v = e / Real.sqrt (∑ k, W v k ^ 2) / radius := by
    rw [hav, div_eq_mul_inv, div_eq_mul_inv]
    rfl
  by_cases hK : K = sphereK
  · rw [hK] at he
    have hmc := (pbeEntry_val_sphere socp _ facets v e).mp he
    exact ⟨e, hmc, Or.inl ⟨hK, hav2⟩⟩
  · by_cases hK2 : K = ballK
    · rw [hK2] at he
      obtain ⟨mc, hmc, hemin⟩ := (pbeEntry_val_ball socp _ facets v e).mp he
      exact ⟨mc, hmc, Or.inr ⟨hK2, by rw [hav2, hemin]⟩⟩
    · exfalso
      cases hmc : pbeMinCorr socp (norm_row W).1 facets v with
      | none =>
          rw [pbeEntry, hmc] at he
          exact PyResult.noConfusion he
      | some mc =>
          rw [pbeEntry, hmc] at he
          simp only [if_neg hK, if_neg hK2] at he
          exact PyResult.noConfusion he

/-- C8: in the per-vertex loop, exactly when the minimum pairwise correlation
`pm` between vertex `v`'s normalized direction and its neighbourhood
directions is strictly negative, the loop's `min_corr` becomes the conic
solver's output over the neighbourhood submatrix — which, for an oracle
returning the true optimal values, is the minimum over all rows `i` of the
optimal value of minimizing `(F[i,:]·Fᵀ)·c` over `‖Fᵀc‖₂ ≤ 1`, `c ≥ 0`
(equivalently, the greatest lower bound of the union of the per-row value
sets); otherwise the pairwise minimum is kept unchanged. -/
theorem C8_conic_fallback {m n : ℕ}
    (socp : (k : ℕ) → Matrix (Fin k) (Fin n) ℝ → Fin k → ℝ)
    (W : Matrix (Fin m) (Fin n) ℝ) (facets : List (List (Fin m))) (v : Fin m)
    (pm : ℝ)
    (hpm : listMin (corrList (norm_row W).1 v (neighbourList facets v)) = some pm)
    (hglb : ∀ i, IsGLB
      (socValues (subRows (norm_row W).1 (neighbourList facets v)) i)
      (socp (neighbourList facets v).length
        (subRows (norm_row W).1 (neighbourList facets v)) i)) :
    (pm < 0 → ∃ s, pbeMinCorr socp (norm_row W).1 facets v = some s ∧
       IsGLB (⋃ i, socValues (subRows (norm_row W).1 (neighbourList facets v)) i) s) ∧
    (0 ≤ pm → pbeMinCorr socp (norm_row W).1 facets v = some pm) := by
  constructor
  · intro hneg
    have hne : neighbourList facets v ≠ [] := by
      intro h0
      rw [h0] at hpm
      simp [corrList, listMin] at hpm
    have hk : 0 < (neighbourList facets v).length := List.length_pos.mpr hne
    cases hl : listMin ((List.finRange (neighbourList facets v).length).map
        (socp (neighbourList facets v).length
          (subRows (norm_row W).1 (neighbourList facets v)))) with
    | none =>
        exfalso
        rw [listMin_eq_none, List.map_eq_nil_iff, List.finRange_eq_nil] at hl
        omega
    | some s =>
        refine ⟨s, ?_, ?_⟩
        · rw [pbeMinCorr, hpm]
          simp only [if_pos hneg]
          exact hl
        · exact isGLB_listMin_iUnion _ _ hglb s hl
  · intro hpos
    rw [pbeMinCorr, hpm]
    simp only [if_neg (not_lt.mpr hpos)]

theorem relu_inv_facet_eq {m n : ℕ}
    (lstsq : (k : ℕ) → Matrix (Fin k) (Fin n) ℝ → (Fin k → ℝ) → Fin n → ℝ)
    (z : Fin m → ℝ) (W : Matrix (Fin m) (Fin n) ℝ) (b : Fin m → ℝ)
    (facets : List (List (Fin m))) :
    relu_inv lstsq z W b facets facetMode =
      match (facetChoice z facets).bind fun i => facets.get? i with
      | none => PyResult.exn nameErrMsg
      | some f =>
          PyResult.val (lstsq f.length (subRows W f) fun i => z (f.get i) + b (f.get i)) := by
  unfold relu_inv
  rw [if_pos rfl]

theorem facet_scan_spec {m n : ℕ}
    (lstsq : (k : ℕ) → Matrix (Fin k) (Fin n) ℝ → (Fin k → ℝ) → Fin n → ℝ)
    (z : Fin m → ℝ) (W : Matrix (Fin m) (Fin n) ℝ) (b : Fin m → ℝ)
    (facets : List (List (Fin m))) (i0 : ℕ)
    (hfind : findFirst (facetPred z) facets = some i0) :
    ∃ f, facets.get? i0 = some f ∧ (∀ k ∈ f, k ∈ support z) ∧
      (∀ j < i0, ∀ g, facets.get? j = some g → ¬ ∀ k ∈ g, k ∈ support z) ∧
      relu_inv lstsq z W b facets facetMode =
        PyResult.val (lstsq f.length (subRows W f) fun i => z (f.get i) + b (f.get i)) := by
  cases facets with
  | nil => exact absurd hfind (by simp [findFirst])
  | cons f0 fs =>
      obtain ⟨f, hf, hpf, hfirst⟩ := findFirst_spec (facetPred z) (f0 :: fs) i0 hfind
      refine ⟨f, hf, ?_, ?_, ?_⟩
      · intro k hk
        exact of_decide_eq_true (List.all_eq_true.mp hpf k hk)
      · intro j hj g hg hall
        have hfalse := hfirst j hj g hg
        have htrue : facetPred z g = true :=
          List.all_eq_true.mpr fun k hk => decide_eq_true (hall k hk)
        rw [htrue] at hfalse
        exact Bool.noConfusion hfalse
      · have hchoice : facetChoice z (f0 :: fs) = some i0 := by
          rw [show facetChoice z (f0 :: fs) =
              some ((findFirst (facetPred z) (f0 :: fs)).getD ((f0 :: fs).length - 1))
            from rfl, hfind]
          rfl
        rw [relu_inv_facet_eq, hchoice, Option.some_bind, hf]

/-- C5: in facet mode, when some facet qualifies, `relu_inv` selects the first
facet (in list order) whose full vertex index set lies inside the support
`{ i : z[i] > 0 }`, and returns the `np.linalg.lstsq` solution of the system
`W_f · x ≈ z_f + b_f` restricted to that facet's indices. -/
theorem C5_first_facet_lstsq {m n : ℕ}
    (lstsq : (k : ℕ) → Matrix (Fin k) (Fin n) ℝ → (Fin k → ℝ) → Fin n → ℝ)
    (z : Fin m → ℝ) (W : Matrix (Fin m) (Fin n) ℝ) (b : Fin m → ℝ)
    (facets : List (List (Fin m))) (i0 : ℕ)
    (hfind : findFirst (facetPred z) facets = some i0) :
    ∃ f, facets.get? i0 = some f ∧ (∀ k ∈ f, k ∈ support z) ∧
      (∀ j < i0, ∀ g, facets.get? j = some g → ¬ ∀ k ∈ g, k ∈ support z) ∧
      relu_inv lstsq z W b facets facetMode =
        PyResult.val (lstsq f.length (subRows W f) fun i => z (f.get i) + b (f.get i)) :=
  facet_scan_spec lstsq z W b facets i0 hfind

theorem relu_pos_eq {m n : ℕ} (x : Fin n → ℝ) (W : Matrix (Fin m) (Fin n) ℝ)
    (b : Fin m → ℝ) (k : Fin m) (h : 0 < relu x W b k) :
    relu x W b k = (∑ j, W k j * x j) - b k := by
  by_cases hp : 0 < (∑ j, W k j * x j) - b k
  · show ((∑ j, W k j * x j) - b k) * _ = _
    rw [if_pos hp, mul_one]
  · exfalso
    have h0 : relu x W b k = 0 := by
      show ((∑ j, W k j * x j) - b k) * _ = 0
      rw [if_neg hp, mul_zero]
    rw [h0] at h
    exact lt_irrefl 0 h

theorem mem_support_iff {m : ℕ} (z : Fin m → ℝ) (k : Fin m) :
    k ∈ support z ↔ 0 < z k := by
  constructor
  · intro h
    have := (List.mem_filter.mp h).2
    exact of_decide_eq_true this
  · intro h
    exact List.mem_filter.mpr ⟨List.mem_finRange k, decide_eq_true h⟩

/-- C4 (amended): for `x` on the unit sphere, with the sphere bias
`α = pbe(W, facets, 'sphere', 1)`, if some facet of the list has its full
vertex set active in `z = ReLU(Wx − α)`, the restricted matrix of the facet
the scan selects is injective, and the reconstruction oracle returns a
least-squares minimizer of the restricted system, then the output of
`relu_inv` in facet mode is exactly `x`, so `‖x̂ − x‖ < 1e-10`. -/
theorem C4_roundtrip_exact {m n : ℕ} (solver : LPProblem n m → LPResult m)
    (socp : (k : ℕ) → Matrix (Fin k) (Fin n) ℝ → Fin k → ℝ)
    (lstsq : (k : ℕ) → Matrix (Fin k) (Fin n) ℝ → (Fin k → ℝ) → Fin n → ℝ)
    (W : Matrix (Fin m) (Fin n) ℝ) (facets : List (List (Fin m)))
    (x xhat : Fin n → ℝ) (alpha : Fin m → ℝ) (i0 : ℕ) (f : List (Fin m))
    (halpha : pbe solver socp W facets sphereK 1 = PyResult.val alpha)
    (hx : ∑ j, x j ^ 2 = 1)
    (hfind : findFirst (facetPred (relu x W alpha)) facets = some i0)
    (hf : facets.get? i0 = some f)
    (hout : relu_inv lstsq (relu x W alpha) W alpha facets facetMode =
      PyResult.val xhat)
    (hsol : ∀ y, lsqError (subRows W f)
        (fun i => relu x W alpha (f.get i) + alpha (f.get i)) xhat ≤
      lsqError (subRows W f)
        (fun i => relu x W alpha (f.get i) + alpha (f.get i)) y)
    (hinj : ∀ y y2 : Fin n → ℝ,
      (∀ i, ∑ j, subRows W f i j * y j = ∑ j, subRows W f i j * y2 j) → y = y2) :
    xhat = x ∧ Real.sqrt (∑ j, (xhat j - x j) ^ 2) < 1 / 10 ^ 10 := by
  obtain ⟨f2, hf2, hact, -, -⟩ :=
    facet_scan_spec lstsq (relu x W alpha) W alpha facets i0 hfind
  rw [hf] at hf2
  injection hf2 with hf2
  rw [← hf2] at hact
  have hrhs : ∀ i : Fin f.length,
      relu x W alpha (f.get i) + alpha (f.get i) = ∑ j, subRows W f i j * x j := by
    intro i
    have hk : 0 < relu x W alpha (f.get i) :=
      (mem_support_iff _ _).mp (hact _ (f.get_mem i.1 i.2))
    rw [relu_pos_eq x W alpha _ hk]
    show (∑ j, W (f.get i) j * x j) - alpha (f.get i) + alpha (f.get i) = _
    rw [sub_add_cancel]
    rfl
  have hx_zero : lsqError (subRows W f)
      (fun i => relu x W alpha (f.get i) + alpha (f.get i)) x = 0 := by
    rw [lsqError]
    apply Finset.sum_eq_zero
    intro i _
    rw [hrhs i, sub_self]
    ring
  have hhat_nonneg : (0 : ℝ) ≤ lsqError (subRows W f)
      (fun i => relu x W alpha (f.get i) + alpha (f.get i)) xhat :=
    Finset.sum_nonneg fun i _ => sq_nonneg _
  have hhat_zero : lsqError (subRows W f)
      (fun i => relu x W alpha (f.get i) + alpha (f.get i)) xhat = 0 :=
    le_antisymm (hx_zero ▸ hsol x) hhat_nonneg
  have hrows : ∀ i : Fin f.length,
      ∑ j, subRows W f i j * xhat j = ∑ j, subRows W f i j * x j := by
    intro i
    have := (Finset.sum_eq_zero_iff_of_nonneg
      (fun i _ => sq_nonneg _)).mp hhat_zero i (Finset.mem_univ i)
    have hdiff := pow_eq_zero_iff (n := 2) (by norm_num) |>.mp this
    have h2 := sub_eq_zero.mp hdiff
    rw [h2]
    exact hrhs i
  have hxx : xhat = x := hinj xhat x hrows
  refine ⟨hxx, ?_⟩
  have : ∑ j, (xhat j - x j) ^ 2 = 0 := by
    apply Finset.sum_eq_zero
    intro j _
    rw [hxx, sub_self]
    ring
  rw [this, Real.sqrt_zero]
  norm_num

/-! Evaluation of the pipeline at the concrete frame `W1`. -/

theorem W1_rank : W1.rank = 1 := by
  have h1 : (Matrix.of ![![(1 : ℝ), 0]]) * W1 = 1 := by
    ext i j
    fin_cases i <;> fin_cases j <;>
      simp [Matrix.mul_apply, Fin.sum_univ_two, W1, Matrix.one_apply]
  have h2 := Matrix.rank_mul_le_right (Matrix.of ![![(1 : ℝ), 0]]) W1
  rw [h1, Matrix.rank_one] at h2
  simp only [Fintype.card_fin] at h2
  exact le_antisymm (Matrix.rank_le_width W1) h2

theorem norm_row_W1_fst : (norm_row W1).1 = W1 := by
  funext i j
  show W1 i j / Real.sqrt (∑ k, W1 i k ^ 2) = W1 i j
  fin_cases i <;> fin_cases j <;> norm_num [W1, Fin.sum_univ_one]

theorem norm_row_W1_snd : (norm_row W1).2 = fun _ => 1 := by
  funext i
  show Real.sqrt (∑ k, W1 i k ^ 2) = 1
  fin_cases i <;> norm_num [W1, Fin.sum_univ_one]

theorem is_omnidir_W1 : is_omnidir solver1 W1 = ⟨some true, []⟩ := by
  rw [is_omnidir, if_neg (by rw [W1_rank]; exact fun h => h rfl)]
  show (if ∃ i, (![1 / 2, 1 / 2] : Fin 2 → ℝ) i < 1 / 10 ^ 10 then _ else _) = _
  rw [if_neg]
  rintro ⟨i, hi⟩
  fin_cases i <;> norm_num at hi

theorem neighbourList_facets1_0 : neighbourList facets1 0 = [0] := by decide

theorem neighbourList_facets1_1 : neighbourList facets1 1 = [1] := by decide

theorem corrList_W1_self (v : Fin 2) : corrList W1 v [v] = [1] := by
  fin_cases v <;> norm_num [corrList, W1, Fin.sum_univ_one]

theorem pbeMinCorr_W1 (socp : (k : ℕ) → Matrix (Fin k) (Fin 1) ℝ → Fin k → ℝ)
    (v : Fin 2) : pbeMinCorr socp W1 facets1 v = some 1 := by
  fin_cases v
  · show pbeMinCorr socp W1 facets1 0 = some 1
    rw [pbeMinCorr, neighbourList_facets1_0, corrList_W1_self 0,
      show listMin [(1 : ℝ)] = some 1 from rfl]
    norm_num
  · show pbeMinCorr socp W1 facets1 1 = some 1
    rw [pbeMinCorr, neighbourList_facets1_1, corrList_W1_self 1,
      show listMin [(1 : ℝ)] = some 1 from rfl]
    norm_num

theorem pbe_W1_sphere (socp : (k : ℕ) → Matrix (Fin k) (Fin 1) ℝ → Fin k → ℝ) :
    pbe solver1 socp W1 facets1 sphereK 1 = PyResult.val ![1, 1] := by
  rw [pbe, if_neg (by rw [is_omnidir_W1]; simp)]
  rw [norm_row_W1_fst]
  have hloop : pbeLoop (pbeEntry socp W1 facets1 sphereK) (List.finRange 2) =
      PyResult.val [1, 1] := by
    rw [show List.finRange 2 = [(0 : Fin 2), 1] by decide]
    rw [pbeLoop, (pbeEntry_val_sphere socp W1 facets1 0 1).mpr (pbeMinCorr_W1 socp 0)]
    rw [pbeLoop, (pbeEntry_val_sphere socp W1 facets1 1 1).mpr (pbeMinCorr_W1 socp 1)]
    rfl
  rw [hloop]
  show PyResult.val
      (fun v : Fin 2 => ([1, 1] : List ℝ).getD (v : ℕ) 0 * ((norm_row W1).2 v)⁻¹ * 1⁻¹) =
    PyResult.val ![1, 1]
  congr 1
  funext v
  rw [norm_row_W1_snd]
  fin_cases v <;> norm_num [List.getD]

theorem pbe_W1_ball (socp : (k : ℕ) → Matrix (Fin k) (Fin 1) ℝ → Fin k → ℝ) :
    pbe solver1 socp W1 facets1 ballK 1 = PyResult.val ![0, 0] := by
  rw [pbe, if_neg (by rw [is_omnidir_W1]; simp)]
  rw [norm_row_W1_fst]
  have hmin : (min (1 : ℝ) 0) = 0 := min_eq_right (by norm_num)
  have hE : ∀ v : Fin 2, pbeEntry socp W1 facets1 ballK v = PyResult.val 0 := by
    intro v
    have := (pbeEntry_val_ball socp W1 facets1 v (min 1 0)).mpr
      ⟨1, pbeMinCorr_W1 socp v, rfl⟩
    rw [hmin] at this
    exact this
  have hloop : pbeLoop (pbeEntry socp W1 facets1 ballK) (List.finRange 2) =
      PyResult.val [0, 0] := by
    rw [show List.finRange 2 = [(0 : Fin 2), 1] by decide]
    rw [pbeLoop, hE 0, pbeLoop, hE 1]
    rfl
  rw [hloop]
  show PyResult.val
      (fun v : Fin 2 => ([0, 0] : List ℝ).getD (v : ℕ) 0 * ((norm_row W1).2 v)⁻¹ * 1⁻¹) =
    PyResult.val ![0, 0]
  congr 1
  funext v
  rw [norm_row_W1_snd]
  fin_cases v <;> norm_num [List.getD]

/-- Witness for C1: at the frame `W1` with facet list `facets1` and radius 1,
`pbe` gives the ball bias `(0, 0)` and the sphere bias `(1, 1)`, and the
claimed inequalities hold at vertex `0`. -/
theorem C1_witness :
    pbe solver1 socpW1 W1 facets1 ballK 1 = PyResult.val ![0, 0] ∧
    pbe solver1 socpW1 W1 facets1 sphereK 1 = PyResult.val ![1, 1] ∧
    (![(0 : ℝ), 0] 0 ≤ ![(1 : ℝ), 1] 0 ∧ ![(0 : ℝ), 0] 0 ≤ 0) :=
  ⟨pbe_W1_ball socpW1, pbe_W1_sphere socpW1,
    C1_ball_le_sphere solver1 socpW1 W1 facets1 1 ![0, 0] ![1, 1]
      (by norm_num) (pbe_W1_ball socpW1) (pbe_W1_sphere socpW1) 0⟩

/-- Witness for C7: at the frame `W1`, radius 1 and the sphere domain, the
returned bias entry at vertex `0` equals `min_corr / ‖W1[0,:]‖₂ / radius`. -/
theorem C7_witness :
    pbeMinCorr socpW1 (norm_row W1).1 facets1 0 = some 1 ∧
    ![(1 : ℝ), 1] 0 = 1 / Real.sqrt (∑ k, W1 0 k ^ 2) / 1 := by
  have hmc : pbeMinCorr socpW1 (norm_row W1).1 facets1 0 = some 1 := by
    rw [norm_row_W1_fst]; exact pbeMinCorr_W1 socpW1 0
  obtain ⟨mc, hmc2, hcase⟩ :=
    C7_pbe_scaling solver1 socpW1 W1 facets1 sphereK 1 ![1, 1]
      (pbe_W1_sphere socpW1) 0
  rw [hmc] at hmc2
  injection hmc2 with hmc2
  rcases hcase with ⟨-, hval⟩ | ⟨hbs, -⟩
  · exact ⟨hmc, by rw [hval, hmc2]⟩
  · exact absurd hbs.symm ball_ne_sphere

/-- C9 (amended): for a full-rank frame the check returns `False` when the LP
is infeasible; when the LP terminates optimally it returns `True`
unconditionally, and the boundary warning is printed exactly when some
coordinate of the optimal combination is strictly less than `1e-10` (a signed
comparison, not a distance-to-zero test); the warning never changes the
returned boolean. -/
theorem C9_omnidir_status {m n : ℕ} (solver : LPProblem n m → LPResult m)
    (W : Matrix (Fin m) (Fin n) ℝ) (hrank : W.rank = n) :
    ((solver (omnidirProblem W)).status = LPStatus.infeasible →
      is_omnidir solver W = ⟨some false, []⟩) ∧
    ((solver (omnidirProblem W)).status = LPStatus.optimal →
      (is_omnidir solver W).value = some true ∧
      ((is_omnidir solver W).printed ≠ [] ↔
        ∃ i, (solver (omnidirProblem W)).x i < 1 / 10 ^ 10)) := by
  have hne : ¬(W.rank ≠ n) := by rw [hrank]; exact fun h => h rfl
  refine ⟨fun hst => ?_, fun hst => ?_⟩
  · rw [is_omnidir, if_neg hne, hst]
  · by_cases hex : ∃ i, (solver (omnidirProblem W)).x i < 1 / 10 ^ 10
    · have hres : is_omnidir solver W = ⟨some true, [boundaryMsg]⟩ := by
        rw [is_omnidir, if_neg hne, hst]
        show (if ∃ i, (solver (omnidirProblem W)).x i < 1 / 10 ^ 10 then
            (⟨some true, [boundaryMsg]⟩ : OmniResult) else ⟨some true, []⟩) = _
        rw [if_pos hex]
      rw [hres]
      exact ⟨rfl, ⟨fun _ => hex, fun _ => by simp⟩⟩
    · have hres : is_omnidir solver W = ⟨some true, []⟩ := by
        rw [is_omnidir, if_neg hne, hst]
        show (if ∃ i, (solver (omnidirProblem W)).x i < 1 / 10 ^ 10 then
            (⟨some true, [boundaryMsg]⟩ : OmniResult) else ⟨some true, []⟩) = _
        rw [if_neg hex]
      rw [hres]
      exact ⟨rfl, ⟨fun h => absurd rfl h, fun h => absurd h hex⟩⟩

/-- Witness for C9 (amended) at `W1` with the exact optimum `(1/2, 1/2)`:
the check returns `True` and prints nothing. -/
theorem C9_witness :
    W1.rank = 1 ∧ (is_omnidir solver1 W1).value = some true ∧
    (is_omnidir solver1 W1).printed = [] := by
  have h := (C9_omnidir_status solver1 W1 W1_rank).2 rfl
  refine ⟨W1_rank, h.1, ?_⟩
  by_contra hne
  obtain ⟨i, hi⟩ := h.2.mp hne
  have hx : (solver1 (omnidirProblem W1)).x = ![1 / 2, 1 / 2] := rfl
  rw [hx] at hi
  fin_cases i <;> norm_num at hi

theorem W3_rank : W3.rank = 1 := by
  have h1 : (Matrix.of ![![(1 : ℝ), 0, 0]]) * W3 = 1 := by
    ext i j
    fin_cases i <;> fin_cases j <;>
      simp [Matrix.mul_apply, Fin.sum_univ_three, W3, Matrix.one_apply]
  have h2 := Matrix.rank_mul_le_right (Matrix.of ![![(1 : ℝ), 0, 0]]) W3
  rw [h1, Matrix.rank_one] at h2
  simp only [Fintype.card_fin] at h2
  exact le_antisymm (Matrix.rank_le_width W3) h2

/-- Counterexample for C9: `cE` is an exact optimal solution of the
omnidirectionality LP for the full-rank frame `W3` (it satisfies all the
constraints, and every feasible point is optimal because the constraint row
`∑c = 1` pins the objective); its last coordinate sits exactly at distance
`1e-10` from zero, yet the check prints no boundary warning, contradicting the
claim that a coordinate at the tolerance triggers the warning. -/
theorem C9_counterexample :
    W3.rank = 1 ∧
    is_omnidir solverE W3 = ⟨some true, []⟩ ∧
    cE 2 = 1 / 10 ^ 10 ∧
    cE 0 * W3 0 0 + cE 1 * W3 1 0 + cE 2 * W3 2 0 = 0 ∧
    cE 0 + cE 1 + cE 2 = 1 ∧
    0 ≤ cE 0 ∧ 0 ≤ cE 1 ∧ 0 ≤ cE 2 := by
  have hval : is_omnidir solverE W3 = ⟨some true, []⟩ := by
    rw [is_omnidir, if_neg (by rw [W3_rank]; exact fun h => h rfl)]
    show (if ∃ i, cE i < 1 / 10 ^ 10 then (⟨some true, [boundaryMsg]⟩ : OmniResult)
        else ⟨some true, []⟩) = _
    rw [if_neg]
    rintro ⟨i, hi⟩
    fin_cases i <;> norm_num [cE] at hi
  refine ⟨W3_rank, hval, by norm_num [cE], ?_, by norm_num [cE], by norm_num [cE],
    by norm_num [cE], by norm_num [cE]⟩
  norm_num [cE, W3]

/-! Evaluation of `is_omnidir` and `pbe` at the rank-deficient matrix `W0`. -/

theorem W0_rank_le : W0.rank ≤ 1 := by
  have hAB : (Matrix.of ![![(1 : ℝ)], ![2]]) * (Matrix.of ![![(1 : ℝ), 0]]) = W0 := by
    ext i j
    fin_cases i <;> fin_cases j <;>
      simp [Matrix.mul_apply, Fin.sum_univ_one, W0]
  have h2 := Matrix.rank_mul_le_left (Matrix.of ![![(1 : ℝ)], ![2]])
    (Matrix.of ![![(1 : ℝ), 0]])
  rw [hAB] at h2
  exact le_trans h2 (Matrix.rank_le_width _)

theorem W0_rank_ne : W0.rank ≠ 2 := by
  have := W0_rank_le
  omega

theorem sqrt_four : Real.sqrt 4 = 2 := by
  rw [show (4 : ℝ) = 2 ^ 2 by norm_num, Real.sqrt_sq (by norm_num : (0 : ℝ) ≤ 2)]

theorem norm_row_W0_fst : (norm_row W0).1 = !![1, 0; 1, 0] := by
  funext i j
  show W0 i j / Real.sqrt (∑ k, W0 i k ^ 2) = _
  fin_cases i <;> fin_cases j <;> norm_num [W0, Fin.sum_univ_two, sqrt_four]

theorem corrList_Wn0_self (v : Fin 2) :
    corrList (!![1, 0; 1, 0] : Matrix (Fin 2) (Fin 2) ℝ) v [v] = [1] := by
  fin_cases v <;> norm_num [corrList, Fin.sum_univ_two]

theorem pbeMinCorr_W0 (socp : (k : ℕ) → Matrix (Fin k) (Fin 2) ℝ → Fin k → ℝ)
    (v : Fin 2) : pbeMinCorr socp (norm_row W0).1 facets1 v = some 1 := by
  rw [norm_row_W0_fst]
  fin_cases v
  · show pbeMinCorr socp _ facets1 0 = some 1
    rw [pbeMinCorr, neighbourList_facets1_0, corrList_Wn0_self 0,
      show listMin [(1 : ℝ)] = some 1 from rfl]
    norm_num
  · show pbeMinCorr socp _ facets1 1 = some 1
    rw [pbeMinCorr, neighbourList_facets1_1, corrList_Wn0_self 1,
      show listMin [(1 : ℝ)] = some 1 from rfl]
    norm_num

/-- C2 (code bug): on the rank-deficient matrix `W0` (rank 1 < 2 columns) the
check executes `return print('The system is not a frame')`, printing the
message and returning `None` without consulting the LP solver — the output is
the same for every solver oracle.  But `pbe` then tests
`is_omnidir(W) == False`, which is false for `None`, so instead of reporting
the error it proceeds and returns the numeric bias vector `(0, 0)`. -/
theorem C2_rank_deficient_proceeds
    (solver : LPProblem 2 2 → LPResult 2)
    (socp : (k : ℕ) → Matrix (Fin k) (Fin 2) ℝ → Fin k → ℝ) :
    is_omnidir solver W0 = ⟨none, [notFrameMsg]⟩ ∧
    pbe solver socp W0 facets1 ballK 1 = PyResult.val ![0, 0] := by
  have homni : is_omnidir solver W0 = ⟨none, [notFrameMsg]⟩ := by
    rw [is_omnidir, if_pos W0_rank_ne]
  refine ⟨homni, ?_⟩
  rw [pbe, if_neg (by rw [homni]; simp)]
  have hmin : (min (1 : ℝ) 0) = 0 := min_eq_right (by norm_num)
  have hE : ∀ v : Fin 2,
      pbeEntry socp (norm_row W0).1 facets1 ballK v = PyResult.val 0 := by
    intro v
    have := (pbeEntry_val_ball socp (norm_row W0).1 facets1 v (min 1 0)).mpr
      ⟨1, pbeMinCorr_W0 socp v, rfl⟩
    rw [hmin] at this
    exact this
  have hloop : pbeLoop (pbeEntry socp (norm_row W0).1 facets1 ballK)
      (List.finRange 2) = PyResult.val [0, 0] := by
    rw [show List.finRange 2 = [(0 : Fin 2), 1] by decide]
    rw [pbeLoop, hE 0, pbeLoop, hE 1]
    rfl
  rw [hloop]
  show PyResult.val
      (fun v : Fin 2 => ([0, 0] : List ℝ).getD (v : ℕ) 0 * ((norm_row W0).2 v)⁻¹ * 1⁻¹) =
    PyResult.val ![0, 0]
  congr 1
  funext v
  fin_cases v <;> norm_num [List.getD]

/-! Evaluation of the reconstruction path on concrete inputs over `W1`. -/

theorem support_zeroB2 : support zeroB2 = [] := by
  have h : ∀ i : Fin 2, ¬(0 < zeroB2 i) := by
    intro i
    fin_cases i <;> norm_num [zeroB2]
  rw [support]
  refine List.filter_eq_nil_iff.mpr ?_
  intro a _
  simpa using h a

theorem findFirst_zeroB2 : findFirst (facetPred zeroB2) facets1 = none := by
  have h0 : facetPred zeroB2 [0] = false := by
    simp only [facetPred, support_zeroB2]
    rfl
  have h1 : facetPred zeroB2 [1] = false := by
    simp only [facetPred, support_zeroB2]
    rfl
  simp [facets1, findFirst, h0, h1]

theorem facetChoice_zeroB2 : facetChoice zeroB2 facets1 = some 1 := by
  rw [show facetChoice zeroB2 facets1 =
      some ((findFirst (facetPred zeroB2) facets1).getD (facets1.length - 1))
    from rfl, findFirst_zeroB2]
  rfl

/-- C3 (code bug): with `z = 0` nothing is active, so no facet of `facets1`
qualifies (`findFirst` is `none`), yet the loop variable keeps its final value
`len(facets) - 1 = 1` and `relu_inv` silently reconstructs with the *last*
facet `[1]`, returning a value instead of failing. -/
theorem C3_no_facet_uses_last :
    findFirst (facetPred zeroB2) facets1 = none ∧
    facetChoice zeroB2 facets1 = some 1 ∧
    facets1.get? 1 = some [1] ∧
    relu_inv lstsqZ1 zeroB2 W1 zeroB2 facets1 facetMode = PyResult.val ![0] := by
  refine ⟨findFirst_zeroB2, facetChoice_zeroB2, rfl, ?_⟩
  rw [relu_inv_facet_eq, facetChoice_zeroB2, Option.some_bind,
    show facets1.get? 1 = some [1] from rfl]
  rfl

theorem support_z5 : support z5 = [0, 1] := by
  have h : ∀ i : Fin 2, 0 < z5 i := by
    intro i
    fin_cases i <;> norm_num [z5]
  rw [support, show List.finRange 2 = [(0 : Fin 2), 1] by decide]
  rw [List.filter_eq_self.mpr]
  intro a _
  exact decide_eq_true (h a)

theorem findFirst_z5 : findFirst (facetPred z5) facets1 = some 0 := by
  have h0 : facetPred z5 [0] = true := by
    simp only [facetPred, support_z5]
    rfl
  simp [facets1, findFirst, h0]

/-- Witness for C5 at `z = (1, 1)` over `W1`: both facets qualify, the scan
selects facet `0` (the first), and the reconstruction calls the least-squares
oracle on the system restricted to it. -/
theorem C5_witness :
    relu_inv lstsqZ1 z5 W1 zeroB2 facets1 facetMode = PyResult.val ![0] ∧
    findFirst (facetPred z5) facets1 = some 0 := by
  obtain ⟨f, hf, -, -, hout⟩ :=
    C5_first_facet_lstsq lstsqZ1 z5 W1 zeroB2 facets1 0 findFirst_z5
  exact ⟨by rw [hout]; rfl, findFirst_z5⟩

/-! The conic fallback exercised at the neighbourhood `{1, -1}` of `W1`. -/

theorem corrList_W1_pair :
    corrList W1 0 [(0 : Fin 2), 1] = [1, -1] := by
  norm_num [corrList, W1, Fin.sum_univ_one]

theorem socValues_pm1_glb (i : Fin 2) :
    IsGLB (socValues (!![(1 : ℝ); -1] : Matrix (Fin 2) (Fin 1) ℝ) i) (-1) := by
  have hF0 : (!![(1 : ℝ); -1] : Matrix (Fin 2) (Fin 1) ℝ) 0 0 = 1 := by norm_num
  have hF1 : (!![(1 : ℝ); -1] : Matrix (Fin 2) (Fin 1) ℝ) 1 0 = -1 := by norm_num
  fin_cases i
  · show IsGLB (socValues (!![(1 : ℝ); -1] : Matrix (Fin 2) (Fin 1) ℝ) 0) (-1)
    constructor
    · rintro y ⟨c, hc, hnorm, hy⟩
      simp only [Fin.sum_univ_one, Fin.sum_univ_two, hF0, hF1] at hnorm hy
      rw [Real.sqrt_sq_eq_abs] at hnorm
      have h1 := (abs_le.mp hnorm).1
      rw [hy]
      nlinarith [h1]
    · intro b hb
      refine hb ⟨![0, 1], fun j => ?_, ?_, ?_⟩
      · fin_cases j <;> norm_num
      · simp only [Fin.sum_univ_one, Fin.sum_univ_two, hF0, hF1]
        norm_num [Real.sqrt_sq_eq_abs]
      · simp only [Fin.sum_univ_one, Fin.sum_univ_two, hF0, hF1]
        norm_num
  · show IsGLB (socValues (!![(1 : ℝ); -1] : Matrix (Fin 2) (Fin 1) ℝ) 1) (-1)
    constructor
    · rintro y ⟨c, hc, hnorm, hy⟩
      simp only [Fin.sum_univ_one, Fin.sum_univ_two, hF0, hF1] at hnorm hy
      rw [Real.sqrt_sq_eq_abs] at hnorm
      have h2 := (abs_le.mp hnorm).2
      rw [hy]
      nlinarith [h2]
    · intro b hb
      refine hb ⟨![1, 0], fun j => ?_, ?_, ?_⟩
      · fin_cases j <;> norm_num
      · simp only [Fin.sum_univ_one, Fin.sum_univ_two, hF0, hF1]
        norm_num [Real.sqrt_sq_eq_abs]
      · simp only [Fin.sum_univ_one, Fin.sum_univ_two, hF0, hF1]
        norm_num

/-- Witness for C8 at vertex `0` of `W1` with the single facet `[0, 1]`: the
pairwise minimum correlation is `-1 < 0`, the conic fallback fires, and its
value `-1` is the greatest lower bound of the union of the per-row SOCP value
sets of the neighbourhood submatrix. -/
theorem C8_witness :
    pbeMinCorr socpW1 (norm_row W1).1 facetsPair 0 = some (-1) ∧
    IsGLB (⋃ i, socValues
      (subRows (norm_row W1).1 (neighbourList facetsPair 0)) i) (-1) := by
  have hnb : neighbourList facetsPair 0 = [(0 : Fin 2), 1] := by decide
  have hpm : listMin (corrList (norm_row W1).1 0 (neighbourList facetsPair 0)) =
      some (-1) := by
    rw [norm_row_W1_fst, hnb, corrList_W1_pair,
      show listMin [(1 : ℝ), -1] = some (min 1 (-1)) from rfl,
      min_eq_right (by norm_num : (-1 : ℝ) ≤ 1)]
  have hM2 : (subRows (norm_row W1).1 [(0 : Fin 2), 1] :
      Matrix (Fin 2) (Fin 1) ℝ) = !![(1 : ℝ); -1] := by
    rw [norm_row_W1_fst]
    ext i j
    fin_cases i <;> fin_cases j <;> norm_num [subRows, W1]
  have hglb2 : ∀ i : Fin 2, IsGLB (socValues (n := 1) (k := 2)
      (subRows (norm_row W1).1 [(0 : Fin 2), 1]) i) (-1) := by
    intro i
    rw [hM2]
    exact socValues_pm1_glb i
  have hglb : ∀ i, IsGLB
      (socValues (subRows (norm_row W1).1 (neighbourList facetsPair 0)) i)
      (socpW1 (neighbourList facetsPair 0).length
        (subRows (norm_row W1).1 (neighbourList facetsPair 0)) i) := fun i =>
    hglb2 i
  obtain ⟨hA, -⟩ := C8_conic_fallback socpW1 W1 facetsPair 0 (-1) hpm hglb
  obtain ⟨s, hs, hsg⟩ := hA (by norm_num)
  have heval : pbeMinCorr socpW1 (norm_row W1).1 facetsPair 0 = some (-1) := by
    rw [pbeMinCorr, hpm]
    show (if (-1 : ℝ) < 0 then
        alpha_S socpW1 (subRows (norm_row W1).1 (neighbourList facetsPair 0))
      else some (-1)) = some (-1)
    rw [if_pos (by norm_num : (-1 : ℝ) < 0)]
    show listMin ((List.finRange (neighbourList facetsPair 0).length).map
      (socpW1 _ (subRows (norm_row W1).1 (neighbourList facetsPair 0)))) = some (-1)
    rw [show (List.finRange (neighbourList facetsPair 0).length).map
        (socpW1 (neighbourList facetsPair 0).length
          (subRows (norm_row W1).1 (neighbourList facetsPair 0))) =
        [(-1 : ℝ), -1] from rfl,
      show listMin [(-1 : ℝ), -1] = some (min (-1) (-1)) from rfl, min_self]
  have hs1 : s = -1 := by
    rw [heval] at hs
    injection hs with hs
    exact hs.symm
  exact ⟨heval, hs1 ▸ hsg⟩

/-! Evaluation of the pipeline at the cross frame `Wsq`. -/

theorem Wsq_rank : Wsq.rank = 2 := by
  have h1 : (Matrix.of ![![(1 : ℝ), 0, 0, 0], ![0, 1, 0, 0]]) * Wsq = 1 := by
    ext i j
    fin_cases i <;> fin_cases j <;>
      simp [Matrix.mul_apply, Fin.sum_univ_four, Wsq, Matrix.one_apply]
  have h2 := Matrix.rank_mul_le_right
    (Matrix.of ![![(1 : ℝ), 0, 0, 0], ![0, 1, 0, 0]]) Wsq
  rw [h1, Matrix.rank_one] at h2
  simp only [Fintype.card_fin] at h2
  exact le_antisymm (Matrix.rank_le_width Wsq) h2

theorem norm_row_Wsq_fst : (norm_row Wsq).1 = Wsq := by
  funext i j
  show Wsq i j / Real.sqrt (∑ k, Wsq i k ^ 2) = Wsq i j
  fin_cases i <;> fin_cases j <;> norm_num [Wsq, Fin.sum_univ_two]

theorem norm_row_Wsq_snd : (norm_row Wsq).2 = fun _ => 1 := by
  funext i
  show Real.sqrt (∑ k, Wsq i k ^ 2) = 1
  fin_cases i <;> norm_num [Wsq, Fin.sum_univ_two]

theorem is_omnidir_Wsq : is_omnidir solverSq Wsq = ⟨some true, []⟩ := by
  rw [is_omnidir, if_neg (by rw [Wsq_rank]; exact fun h => h rfl)]
  show (if ∃ i, (![1 / 4, 1 / 4, 1 / 4, 1 / 4] : Fin 4 → ℝ) i < 1 / 10 ^ 10
    then _ else _) = _
  rw [if_neg]
  rintro ⟨i, hi⟩
  fin_cases i <;> norm_num at hi

theorem nbSq0 : neighbourList facetsSq 0 = [0, 1, 3] := by decide

theorem nbSq1 : neighbourList facetsSq 1 = [0, 1, 2] := by decide

theorem nbSq2 : neighbourList facetsSq 2 = [1, 2, 3] := by decide

theorem nbSq3 : neighbourList facetsSq 3 = [0, 2, 3] := by decide

theorem corrSq0 : corrList Wsq 0 [0, 1, 3] = [1, 0, 0] := by
  norm_num [corrList, Wsq, Fin.sum_univ_two]

theorem corrSq1 : corrList Wsq 1 [0, 1, 2] = [0, 1, 0] := by
  norm_num [corrList, Wsq, Fin.sum_univ_two]

theorem corrSq2 : corrList Wsq 2 [1, 2, 3] = [0, 1, 0] := by
  norm_num [corrList, Wsq, Fin.sum_univ_two]

theorem corrSq3 : corrList Wsq 3 [0, 2, 3] = [0, 0, 1] := by
  norm_num [corrList, Wsq, Fin.sum_univ_two]

theorem listMin_100 : listMin [(1 : ℝ), 0, 0] = some 0 := by
  rw [show listMin [(1 : ℝ), 0, 0] = some (min (min 1 0) 0) from rfl]
  norm_num

theorem listMin_010 : listMin [(0 : ℝ), 1, 0] = some 0 := by
  rw [show listMin [(0 : ℝ), 1, 0] = some (min (min 0 1) 0) from rfl]
  norm_num

theorem listMin_001 : listMin [(0 : ℝ), 0, 1] = some 0 := by
  rw [show listMin [(0 : ℝ), 0, 1] = some (min (min 0 0) 1) from rfl]
  norm_num

theorem pbeMinCorr_Wsq (socp : (k : ℕ) → Matrix (Fin k) (Fin 2) ℝ → Fin k → ℝ)
    (v : Fin 4) : pbeMinCorr socp Wsq facetsSq v = some 0 := by
  fin_cases v
  · show pbeMinCorr socp Wsq facetsSq 0 = some 0
    rw [pbeMinCorr, nbSq0, corrSq0, listMin_100]
    norm_num
  · show pbeMinCorr socp Wsq facetsSq 1 = some 0
    rw [pbeMinCorr, nbSq1, corrSq1, listMin_010]
    norm_num
  · show pbeMinCorr socp Wsq facetsSq 2 = some 0
    rw [pbeMinCorr, nbSq2, corrSq2, listMin_010]
    norm_num
  · show pbeMinCorr socp Wsq facetsSq 3 = some 0
    rw [pbeMinCorr, nbSq3, corrSq3, listMin_001]
    norm_num

theorem pbe_Wsq_sphere (socp : (k : ℕ) → Matrix (Fin k) (Fin 2) ℝ → Fin k → ℝ) :
    pbe solverSq socp Wsq facetsSq sphereK 1 = PyResult.val alphaSq0 := by
  rw [pbe, if_neg (by rw [is_omnidir_Wsq]; simp)]
  rw [norm_row_Wsq_fst]
  have hE : ∀ v : Fin 4, pbeEntry socp Wsq facetsSq sphereK v = PyResult.val 0 :=
    fun v => (pbeEntry_val_sphere socp Wsq facetsSq v 0).mpr (pbeMinCorr_Wsq socp v)
  have hloop : pbeLoop (pbeEntry socp Wsq facetsSq sphereK) (List.finRange 4) =
      PyResult.val [0, 0, 0, 0] := by
    rw [show List.finRange 4 = [(0 : Fin 4), 1, 2, 3] by decide]
    rw [pbeLoop, hE 0, pbeLoop, hE 1, pbeLoop, hE 2, pbeLoop, hE 3]
    rfl
  rw [hloop]
  show PyResult.val
      (fun v : Fin 4 =>
        ([0, 0, 0, 0] : List ℝ).getD (v : ℕ) 0 * ((norm_row Wsq).2 v)⁻¹ * 1⁻¹) =
    PyResult.val alphaSq0
  congr 1
  funext v
  rw [norm_row_Wsq_snd]
  fin_cases v <;> norm_num [List.getD, alphaSq0]

theorem relu_xc : relu xc Wsq alphaSq0 = ![1, 0, 0, 0] := by
  funext i
  fin_cases i <;> norm_num [relu, Wsq, xc, alphaSq0, Fin.sum_univ_two]

theorem relu_x45 : relu x45 Wsq alphaSq0 = ![3 / 5, 4 / 5, 0, 0] := by
  funext i
  fin_cases i <;> norm_num [relu, Wsq, x45, alphaSq0, Fin.sum_univ_two]

theorem support_xc : support (relu xc Wsq alphaSq0) = [0] := by
  rw [relu_xc, support, show List.finRange 4 = [(0 : Fin 4), 1, 2, 3] by decide]
  norm_num [List.filter_cons, List.filter_nil]

theorem support_x45 : support (relu x45 Wsq alphaSq0) = [0, 1] := by
  rw [relu_x45, support, show List.finRange 4 = [(0 : Fin 4), 1, 2, 3] by decide]
  norm_num [List.filter_cons, List.filter_nil]

theorem findFirst_xc :
    findFirst (facetPred (relu xc Wsq alphaSq0)) facetsSq = none := by
  have hfp : facetPred (relu xc Wsq alphaSq0) =
      fun f => f.all fun k => decide (k ∈ ([(0 : Fin 4)] : List (Fin 4))) := by
    funext f
    simp only [facetPred, support_xc]
  rw [hfp]
  decide

theorem findFirst_x45 :
    findFirst (facetPred (relu x45 Wsq alphaSq0)) facetsSq = some 1 := by
  have hfp : facetPred (relu x45 Wsq alphaSq0) =
      fun f => f.all fun k => decide (k ∈ ([(0 : Fin 4), 1] : List (Fin 4))) := by
    funext f
    simp only [facetPred, support_x45]
  rw [hfp]
  decide

theorem facetChoice_xc :
    facetChoice (relu xc Wsq alphaSq0) facetsSq = some 3 := by
  rw [show facetChoice (relu xc Wsq alphaSq0) facetsSq =
      some ((findFirst (facetPred (relu xc Wsq alphaSq0)) facetsSq).getD
        (facetsSq.length - 1)) from rfl, findFirst_xc]
  rfl

theorem relu_inv_xc :
    relu_inv lstsqZ2 (relu xc Wsq alphaSq0) Wsq alphaSq0 facetsSq facetMode =
      PyResult.val ![0, 0] := by
  rw [relu_inv_facet_eq, facetChoice_xc, Option.some_bind,
    show facetsSq.get? 3 = some [2, 3] from rfl]
  rfl

/-- Counterexample for C4: the cross frame `Wsq` is full-rank and
omnidirectional and `facetsSq` lists the facets of its hull, the input
`xc = (1, 0)` lies on the unit sphere, and `α^S = pbe(…, 'sphere', 1) = 0`;
but only index `0` is active in `z = ReLU(Wsq·xc − α^S)`, no facet has its
full vertex set active, `relu_inv` falls back to the last facet `[2, 3]`, and
solving the restricted system `W_f·x = z_f + α_f` exactly (both residual rows
vanish at the returned point `(0, 0)`, so `(0, 0)` is the true least-squares
solution) yields `x̂ = (0, 0)` with `‖x̂ − xc‖ = 1`, violating the claimed
`< 1e-10` round-trip bound. -/
theorem C4_counterexample :
    Wsq.rank = 2 ∧
    is_omnidir solverSq Wsq = ⟨some true, []⟩ ∧
    pbe solverSq socpSq Wsq facetsSq sphereK 1 = PyResult.val alphaSq0 ∧
    (∑ j, xc j ^ 2) = 1 ∧
    facetChoice (relu xc Wsq alphaSq0) facetsSq = some 3 ∧
    facetsSq.get? 3 = some [2, 3] ∧
    relu_inv lstsqZ2 (relu xc Wsq alphaSq0) Wsq alphaSq0 facetsSq facetMode =
      PyResult.val ![0, 0] ∧
    Wsq 2 0 * 0 + Wsq 2 1 * 0 - (relu xc Wsq alphaSq0 2 + alphaSq0 2) = 0 ∧
    Wsq 3 0 * 0 + Wsq 3 1 * 0 - (relu xc Wsq alphaSq0 3 + alphaSq0 3) = 0 ∧
    ¬ Real.sqrt (∑ j, ((![0, 0] : Fin 2 → ℝ) j - xc j) ^ 2) < 1 / 10 ^ 10 := by
  refine ⟨Wsq_rank, is_omnidir_Wsq, pbe_Wsq_sphere socpSq,
    by norm_num [xc, Fin.sum_univ_two], facetChoice_xc, rfl, relu_inv_xc,
    ?_, ?_, ?_⟩
  · rw [relu_xc]
    norm_num [Wsq, alphaSq0]
  · rw [relu_xc]
    norm_num [Wsq, alphaSq0]
  · have harg : (∑ j, ((![0, 0] : Fin 2 → ℝ) j - xc j) ^ 2) = 1 := by
      norm_num [xc, Fin.sum_univ_two]
    rw [harg, Real.sqrt_one]
    norm_num

/-- Witness for C4 (amended) at `x45 = (3/5, 4/5)` over the cross frame: the
facet `[0, 1]` is fully active, the selected restricted matrix is injective,
the oracle output `(3/5, 4/5)` has zero residual, and the reconstruction is
exact. -/
theorem C4_witness :
    Real.sqrt (∑ j, (x45 j - x45 j) ^ 2) < 1 / 10 ^ 10 ∧
    pbe solverSq socpSq Wsq facetsSq sphereK 1 = PyResult.val alphaSq0 := by
  have hf : facetsSq.get? 1 = some [0, 1] := rfl
  have hout : relu_inv lstsq45 (relu x45 Wsq alphaSq0) Wsq alphaSq0 facetsSq
      facetMode = PyResult.val x45 := by
    rw [relu_inv_facet_eq,
      show facetChoice (relu x45 Wsq alphaSq0) facetsSq =
        some ((findFirst (facetPred (relu x45 Wsq alphaSq0)) facetsSq).getD
          (facetsSq.length - 1)) from rfl, findFirst_x45]
    rfl
  have hr0 : relu x45 Wsq alphaSq0 0 + alphaSq0 0 = 3 / 5 := by
    rw [relu_x45]
    norm_num [alphaSq0]
  have hr1 : relu x45 Wsq alphaSq0 1 + alphaSq0 1 = 4 / 5 := by
    rw [relu_x45]
    norm_num [alphaSq0]
  have hsol : ∀ y, lsqError (subRows Wsq [(0 : Fin 4), 1])
      (fun i => relu x45 Wsq alphaSq0 (([(0 : Fin 4), 1]).get i) +
        alphaSq0 (([(0 : Fin 4), 1]).get i)) x45 ≤
      lsqError (subRows Wsq [(0 : Fin 4), 1])
      (fun i => relu x45 Wsq alphaSq0 (([(0 : Fin 4), 1]).get i) +
        alphaSq0 (([(0 : Fin 4), 1]).get i)) y := by
    intro y
    have hzero : lsqError (subRows Wsq [(0 : Fin 4), 1])
        (fun i => relu x45 Wsq alphaSq0 (([(0 : Fin 4), 1]).get i) +
          alphaSq0 (([(0 : Fin 4), 1]).get i)) x45 = 0 := by
      rw [lsqError]
      apply Finset.sum_eq_zero
      intro i _
      fin_cases i
      · show ((∑ j : Fin 2, Wsq 0 j * x45 j) -
          (relu x45 Wsq alphaSq0 0 + alphaSq0 0)) ^ 2 = 0
        rw [hr0]
        norm_num [Wsq, x45, Fin.sum_univ_two]
      · show ((∑ j : Fin 2, Wsq 1 j * x45 j) -
          (relu x45 Wsq alphaSq0 1 + alphaSq0 1)) ^ 2 = 0
        rw [hr1]
        norm_num [Wsq, x45, Fin.sum_univ_two]
    rw [hzero]
    exact Finset.sum_nonneg fun i _ => sq_nonneg _
  have hinj : ∀ y y2 : Fin 2 → ℝ,
      (∀ i, ∑ j, subRows Wsq [(0 : Fin 4), 1] i j * y j =
        ∑ j, subRows Wsq [(0 : Fin 4), 1] i j * y2 j) → y = y2 := by
    intro y y2 h
    have h0 := h ⟨0, by norm_num⟩
    have h1 := h ⟨1, by norm_num⟩
    rw [show (∑ j, subRows Wsq [(0 : Fin 4), 1] ⟨0, by norm_num⟩ j * y j) =
        ∑ j : Fin 2, Wsq 0 j * y j from rfl,
      show (∑ j, subRows Wsq [(0 : Fin 4), 1] ⟨0, by norm_num⟩ j * y2 j) =
        ∑ j : Fin 2, Wsq 0 j * y2 j from rfl] at h0
    rw [show (∑ j, subRows Wsq [(0 : Fin 4), 1] ⟨1, by norm_num⟩ j * y j) =
        ∑ j : Fin 2, Wsq 1 j * y j from rfl,
      show (∑ j, subRows Wsq [(0 : Fin 4), 1] ⟨1, by norm_num⟩ j * y2 j) =
        ∑ j : Fin 2, Wsq 1 j * y2 j from rfl] at h1
    simp only [Fin.sum_univ_two] at h0 h1
    norm_num [Wsq] at h0 h1
    funext j
    fin_cases j
    · exact h0
    · exact h1
  obtain ⟨hxx, hdist⟩ := C4_roundtrip_exact solverSq socpSq lstsq45 Wsq facetsSq
    x45 x45 alphaSq0 1 [0, 1] (pbe_Wsq_sphere socpSq)
    (by norm_num [x45, Fin.sum_univ_two]) findFirst_x45 hf hout hsol hinj
  exact ⟨hdist, pbe_Wsq_sphere socpSq⟩

end

end PBE
